import Mathlib

/-!
Verification development for the `nevaeh5379.github.io` translation tools.

The JavaScript sources (`src/llmtranslate/providers.js`, `src/charuser/script.js`)
are embedded shallowly: strings are `List Char`, the browser `fetch`/stream
machinery is replaced by explicit data (an HTTP outcome plus the list of text
lines delivered by the body stream), and `JSON.parse` composed with a field
path (an external library call in the source) is a parameter of each decoding
loop.  Every definition mirrors the corresponding JavaScript function; line
numbers in comments refer to `providers.js` unless said otherwise.
-/

/-- JavaScript strings, modelled as lists of characters. -/
abbrev Str := List Char

/-- ASCII lower-casing of one character (the tag and query alphabets used by
the code are ASCII, so this models `String.prototype.toLowerCase` and the `i`
regex flag on the inputs that matter). -/
def lcChar (c : Char) : Char :=
  if 'A' ≤ c ∧ c ≤ 'Z' then Char.ofNat (c.toNat + 32) else c

/-- Case-sensitive character comparison. -/
def csEq (a b : Char) : Bool := a == b

/-- Case-insensitive character comparison (regex flag `i`). -/
def ciEq (a b : Char) : Bool := lcChar a == lcChar b

/-- If `pat` matches at the head of `cs` (w.r.t. `chEq`), return the matched
segment (in original spelling) and the remainder. -/
def takeP (chEq : Char → Char → Bool) : Str → Str → Option (Str × Str)
  | [], cs => some ([], cs)
  | _ :: _, [] => none
  | p :: ps, c :: cs =>
    if chEq c p then
      match takeP chEq ps cs with
      | some (m, r) => some (c :: m, r)
      | none => none
    else none

/-- Does `pat` match at the head of `cs`? -/
def startsP (chEq : Char → Char → Bool) (pat cs : Str) : Bool :=
  (takeP chEq pat cs).isSome

/-- Does `pat` occur anywhere in `cs`?  (Models `String.prototype.includes`
and regex search.) -/
def containsP (chEq : Char → Char → Bool) (pat : Str) : Str → Bool
  | [] => startsP chEq pat []
  | c :: rest => startsP chEq pat (c :: rest) || containsP chEq pat rest

/-- Split `cs` at the first occurrence of `pat`: returns
`(before, matchedSegment, after)`. -/
def splitFirstP (chEq : Char → Char → Bool) (pat : Str) : Str → Option (Str × Str × Str)
  | [] =>
    match takeP chEq pat [] with
    | some (m, r) => some ([], m, r)
    | none => none
  | c :: rest =>
    match takeP chEq pat (c :: rest) with
    | some (m, r) => some ([], m, r)
    | none =>
      match splitFirstP chEq pat rest with
      | some (b, m, r) => some (c :: b, m, r)
      | none => none

/-- Index of the first occurrence of `pat` in `cs`
(models `String.prototype.indexOf`, `none` for `-1`). -/
def firstIdxP (chEq : Char → Char → Bool) (pat : Str) : Str → Option Nat
  | [] => if startsP chEq pat [] then some 0 else none
  | c :: rest =>
    if startsP chEq pat (c :: rest) then some 0
    else
      match firstIdxP chEq pat rest with
      | some i => some (i + 1)
      | none => none

/-- Index of the last occurrence of `pat` in `cs`
(models `String.prototype.lastIndexOf`, `none` for `-1`). -/
def lastIdxP (chEq : Char → Char → Bool) (pat : Str) : Str → Option Nat
  | [] => if startsP chEq pat [] then some 0 else none
  | c :: rest =>
    match lastIdxP chEq pat rest with
    | some i => some (i + 1)
    | none => if startsP chEq pat (c :: rest) then some 0 else none

/-- Whitespace characters recognised by `String.prototype.trim`
(ASCII portion). -/
def isWs (c : Char) : Bool :=
  c == ' ' || c == '\t' || c == '\n' || c == '\r' || c == '\x0b' || c == '\x0c'

/-- `String.prototype.trim`. -/
def jsTrim (cs : Str) : Str :=
  ((cs.dropWhile isWs).reverse.dropWhile isWs).reverse

/-- `a` is a prefix of `b` (boolean). -/
def isPrefixB : Str → Str → Bool
  | [], _ => true
  | _ :: _, [] => false
  | a :: as, b :: bs => a == b && isPrefixB as bs

/-- Each string in the list is a prefix of the next one
(the append-only/monotonicity property of §3 of the spec). -/
def chainExtB : List Str → Bool
  | [] => true
  | [_] => true
  | a :: b :: rest => isPrefixB a b && chainExtB (b :: rest)

/-- `String.prototype.substring(a, b)`: arguments are swapped when
`a > b`, exactly as in JavaScript. -/
def jsSubstring (cs : Str) (a b : Nat) : Str :=
  if a ≤ b then (cs.take b).drop a else (cs.take a).drop b

/-- Fuelled worker for `jsReplaceAll`. -/
def jsReplaceAllGo (pat rep : Str) : Nat → Str → Str
  | 0, cs => cs
  | _ + 1, [] => []
  | fuel + 1, c :: rest =>
    match takeP csEq pat (c :: rest) with
    | some (_, r) => rep ++ jsReplaceAllGo pat rep fuel r
    | none => c :: jsReplaceAllGo pat rep fuel rest

/-- `String.prototype.replace(/lit/g, rep)` with a literal pattern: one
left-to-right pass over the subject, never re-scanning inserted text.
(The `$`-escape syntax of JavaScript replacement strings is outside the
model; no value considered here contains `$`.) -/
def jsReplaceAll (pat rep cs : Str) : Str :=
  jsReplaceAllGo pat rep cs.length cs

/-- `<w>` -/
def tagOpen (w : Str) : Str := '<' :: w ++ ['>']

/-- `</w>` -/
def tagClose (w : Str) : Str := '<' :: '/' :: w ++ ['>']

/-- Fuelled worker for `stripTag`. -/
def stripTagGo (chEq : Char → Char → Bool) (w : Str) : Nat → Str → Str
  | 0, cs => cs
  | _ + 1, [] => []
  | fuel + 1, c :: rest =>
    match takeP chEq (tagClose w) (c :: rest) with
    | some (_, r) => stripTagGo chEq w fuel r
    | none =>
      match takeP chEq (tagOpen w) (c :: rest) with
      | some (_, r) => stripTagGo chEq w fuel r
      | none => c :: stripTagGo chEq w fuel rest

/-- `s.replace(/<\/?w>/g, '')` (or `/gi` with `ciEq`): one pass removing
every open or close tag of kind `w`.  The regex `<\/?w>` tries the
variant with `/` first; the two variants can never match at the same
position, so the order is irrelevant. -/
def stripTag (chEq : Char → Char → Bool) (w cs : Str) : Str :=
  stripTagGo chEq w cs.length cs

/-- Fuelled worker for `scanPairs`. -/
def scanPairsGo (opn cls : Str) : Nat → Str → Str × Str
  | 0, cs => ([], cs)
  | fuel + 1, cs =>
    match splitFirstP ciEq opn cs with
    | none => ([], cs)
    | some (pre, _, afterOpen) =>
      match splitFirstP ciEq cls afterOpen with
      | none => ([], cs)
      | some (inner, _, afterClose) =>
        let (ins, res) := scanPairsGo opn cls fuel afterClose
        (inner ++ ins, pre ++ res)

/-- The complete-pair passes of `separateThinking` (providers.js 826-833):
the `exec` loop of `/<think>([\s\S]*?)<\/think>/gi` collecting the inner
text `match[1]` of every complete pair, together with
`output.replace(/<think>[\s\S]*?<\/think>/gi, '')` removing those pairs.
Returns `(concatenated inners, subject with the pairs removed)`. -/
def scanPairs (opn cls : Str) (cs : Str) : Str × Str :=
  scanPairsGo opn cls (cs.length + 1) cs

/-- Fuelled worker for `scanStrip`. -/
def scanStripGo (w : Str) : Nat → Str → Str × Str
  | 0, cs => ([], cs)
  | fuel + 1, cs =>
    match splitFirstP ciEq (tagOpen w) cs with
    | none => ([], cs)
    | some (pre, mo, afterOpen) =>
      match splitFirstP ciEq (tagClose w) afterOpen with
      | none => ([], cs)
      | some (inner, mc, afterClose) =>
        let (ins, res) := scanStripGo w fuel afterClose
        (stripTag ciEq w (mo ++ inner ++ mc) ++ ins, pre ++ res)

/-- `output.replace(/<w>[\s\S]*?<\/w>/gi, m => { thinking += m.replace(/<\/?w>/gi, ''); return ''; })`
(providers.js 849-856): removes every complete `<w>…</w>` pair and collects
each whole match with its tag markers stripped. -/
def scanStrip (w : Str) (cs : Str) : Str × Str :=
  scanStripGo w (cs.length + 1) cs

/-- Tag word `think`. -/
def wThink : Str := "think".data

/-- Tag word `thinking`. -/
def wThinking : Str := "thinking".data

/-- Tag word `reasoning`. -/
def wReasoning : Str := "reasoning".data

/-- Result of `LlamaCppProvider.separateThinking`. -/
structure SepOut where
  thinking : Str
  output : Str
deriving DecidableEq

/-- `LlamaCppProvider.separateThinking` (providers.js 821-860), the
thinking-extractor state machine run as a one-shot pass:

1. collect and remove every complete `<think>…</think>` pair (`/gi`);
2. if a `<think>` with no later `</think>` remains (`lastIndexOf`, both
   case-sensitive), move everything from it to the end into `thinking`;
3. strip orphan `<think>`/`</think>` markers (`/gi`) and trim;
4. remove complete `<thinking>…</thinking>` and `<reasoning>…</reasoning>`
   pairs, appending each whole match with its markers stripped;
5. strip orphan `<thinking>`/`<reasoning>` markers and trim;
6. return the trimmed `thinking` and the visible `output`. -/
def separateThinking (text : Str) : SepOut :=
  let p1 := scanPairs (tagOpen wThink) (tagClose wThink) text
  let thinking1 := p1.1
  let out1 := p1.2
  let openIdx := lastIdxP csEq (tagOpen wThink) out1
  let closeIdx := lastIdxP csEq (tagClose wThink) out1
  let p2 :=
    match openIdx with
    | none => (thinking1, out1)
    | some i =>
      match closeIdx with
      | none => (thinking1 ++ out1.drop (i + 7), out1.take i)
      | some j =>
        if j < i then (thinking1 ++ out1.drop (i + 7), out1.take i)
        else (thinking1, out1)
  let thinking2 := p2.1
  let out3 := jsTrim (stripTag ciEq wThink p2.2)
  let pT := scanStrip wThinking out3
  let thinking3 := thinking2 ++ pT.1
  let pR := scanStrip wReasoning pT.2
  let thinking4 := thinking3 ++ pR.1
  let out6 := jsTrim (stripTag ciEq wReasoning (stripTag ciEq wThinking pR.2))
  { thinking := jsTrim thinking4, output := out6 }

/-- Normalized streaming callback events (`onContent`/`onReasoning`/
`onDone`/`onError`).  Each argument is the full accumulated string the
code passes, never a bare delta. -/
inductive StreamEv
  | contentEv (s : Str)
  | reasoningEv (s : Str)
  | doneEv (s : Str) (r : Option Str)
  | errorEv (msg : Str)
deriving DecidableEq

/-- Outcome of one `translate`/`translateStream` call: the returned final
text, or the message of the thrown `Error`. -/
inductive Outcome
  | ok (finalText : Str)
  | thrown (msg : Str)
deriving DecidableEq

/-- Result of running one streaming call: callback events in order, the
number of `fetch` calls issued, and the call's outcome. -/
structure RunOut where
  events : List StreamEv
  fetches : Nat
  result : Outcome
deriving DecidableEq

/-- Behaviour of the one `fetch` + body stream of a streaming call:
either the connection fails (the promise rejects with message `msg`), or a
response arrives with `status`, an error body whose `error.error?.message`
field reads back as `errMsg` (`none` when the body is unparseable or the
field is absent), and the text lines delivered by the body stream. -/
inductive Net
  | noConn (msg : Str)
  | resp (status : Nat) (errMsg : Option Str) (lines : List Str)
deriving DecidableEq

/-- Behaviour of the one `fetch` of a non-streaming call: connection
failure, or a response with `status`, parsed error message, and the
content text extracted from the success body. -/
inductive NetOnce
  | noConn (msg : Str)
  | resp (status : Nat) (errMsg : Option Str) (bodyText : Str)
deriving DecidableEq

/-- Provider configuration (`this.config`): the fields the adapters read. -/
structure Config where
  apiKey : Option Str
  baseUrl : Option Str
  model : Option Str
deriving DecidableEq

/-- `error.error?.message || fallback`: the structured message when present
and truthy (non-empty), otherwise the generic fallback. -/
def jsOrElse (v : Option Str) (d : Str) : Str :=
  match v with
  | some m => if m = [] then d else m
  | none => d

/-- `response.ok`: status in `[200, 300)`. -/
def respOk (st : Nat) : Bool := 200 ≤ st && st < 300

/-- One line of the `OpenAIProvider.translateStream` decoding loop
(providers.js 149-165).  `parse` models `JSON.parse` followed by
`parsed.choices?.[0]?.delta?.content` (`none`: invalid JSON or absent
field).  Returns the updated `fullContent` and the emitted events. -/
def sseLineStep (parse : Str → Option Str) (full : Str) (line : Str) : Str × List StreamEv :=
  if startsP csEq "data: ".data line then
    let data := line.drop 6
    if data = "[DONE]".data then (full, [])
    else
      match parse data with
      | some delta =>
        if delta = [] then (full, [])
        else (full ++ delta, [.contentEv (full ++ delta)])
      | none => (full, [])
  else (full, [])

/-- The whole `OpenAIProvider.translateStream` read loop over the lines
delivered by the body stream. -/
def sseGo (parse : Str → Option Str) : List Str → Str → Str × List StreamEv
  | [], full => (full, [])
  | l :: ls, full =>
    let s1 := sseLineStep parse full l
    let s2 := sseGo parse ls s1.1
    (s2.1, s1.2 ++ s2.2)

/-- `OpenAIProvider.translateStream` (providers.js 106-174).  The missing
API key is thrown *before* the `try` block, so no callback fires and no
fetch is issued.  Errors inside the `try` (connection failure, non-2xx
response) invoke `onError` once and re-throw. -/
def openAITranslateStream (cfg : Config) (parse : Str → Option Str) (net : Net) : RunOut :=
  if cfg.apiKey = none then
    { events := [], fetches := 0,
      result := .thrown "OpenAI API Key가 설정되지 않았습니다.".data }
  else
    match net with
    | .noConn m => { events := [.errorEv m], fetches := 1, result := .thrown m }
    | .resp st eb lines =>
      if respOk st then
        let r := sseGo parse lines []
        { events := r.2 ++ [.doneEv (jsTrim r.1) none], fetches := 1,
          result := .ok (jsTrim r.1) }
      else
        let m := jsOrElse eb ("OpenAI API 오류: ".data ++ (Nat.repr st).data)
        { events := [.errorEv m], fetches := 1, result := .thrown m }

/-- `OpenAIProvider.translate` (providers.js 72-104), non-streaming. -/
def openAITranslate (cfg : Config) (net : NetOnce) : Nat × Outcome :=
  if cfg.apiKey = none then
    (0, .thrown "OpenAI API Key가 설정되지 않았습니다.".data)
  else
    match net with
    | .noConn m => (1, .thrown m)
    | .resp st eb body =>
      if respOk st then (1, .ok (jsTrim body))
      else (1, .thrown (jsOrElse eb ("OpenAI API 오류: ".data ++ (Nat.repr st).data)))

/-- Parsed shape of one Claude stream message: `content_block_start`
(carrying `content_block?.type`), `content_block_delta` (carrying
`delta?.type`, `delta.thinking`, `delta.text`), or anything else. -/
inductive ClaudeMsg
  | blockStart (blockType : Option Str)
  | blockDelta (deltaType : Option Str) (thinkingF : Option Str) (textF : Option Str)
  | otherMsg
deriving DecidableEq

/-- Mutable state of the Claude decoding loop. -/
structure ClaudeSt where
  fullContent : Str
  fullThinking : Str
  currentBlockType : Option Str
deriving DecidableEq

/-- One line of the `ClaudeProvider.translateStream` loop
(providers.js 310-341). -/
def claudeLineStep (parse : Str → Option ClaudeMsg) (st : ClaudeSt) (line : Str) :
    ClaudeSt × List StreamEv :=
  if startsP csEq "data: ".data line then
    let data := line.drop 6
    if data = [] ∨ data = "[DONE]".data then (st, [])
    else
      match parse data with
      | none => (st, [])
      | some (.blockStart bt) => ({ st with currentBlockType := bt }, [])
      | some (.blockDelta dt th tx) =>
        let s1 :=
          match dt, th with
          | some t, some v =>
            if t = "thinking_delta".data ∧ v ≠ [] then
              let acc := st.fullThinking ++ v
              ({ st with fullThinking := acc }, [StreamEv.reasoningEv acc])
            else (st, [])
          | _, _ => (st, [])
        match dt, tx with
        | some t, some v =>
          if t = "text_delta".data ∧ v ≠ [] then
            let acc := s1.1.fullContent ++ v
            ({ s1.1 with fullContent := acc }, s1.2 ++ [StreamEv.contentEv acc])
          else s1
        | _, _ => s1
      | some .otherMsg => (st, [])
  else (st, [])

/-- The whole `ClaudeProvider.translateStream` read loop. -/
def claudeGo (parse : Str → Option ClaudeMsg) : List Str → ClaudeSt → ClaudeSt × List StreamEv
  | [], st => (st, [])
  | l :: ls, st =>
    let s1 := claudeLineStep parse st l
    let s2 := claudeGo parse ls s1.1
    (s2.1, s1.2 ++ s2.2)

/-- `ClaudeProvider.translateStream` (providers.js 257-350).  As for
OpenAI, the missing API key is thrown before the `try`. -/
def claudeTranslateStream (cfg : Config) (parse : Str → Option ClaudeMsg) (net : Net) : RunOut :=
  if cfg.apiKey = none then
    { events := [], fetches := 0,
      result := .thrown "Claude API Key가 설정되지 않았습니다.".data }
  else
    match net with
    | .noConn m => { events := [.errorEv m], fetches := 1, result := .thrown m }
    | .resp st eb lines =>
      if respOk st then
        let r := claudeGo parse lines ⟨[], [], none⟩
        { events := r.2 ++ [.doneEv (jsTrim r.1.fullContent) (some r.1.fullThinking)],
          fetches := 1, result := .ok (jsTrim r.1.fullContent) }
      else
        let m := jsOrElse eb ("Claude API 오류: ".data ++ (Nat.repr st).data)
        { events := [.errorEv m], fetches := 1, result := .thrown m }

/-- `ClaudeProvider.translate` (providers.js 222-255), non-streaming. -/
def claudeTranslate (cfg : Config) (net : NetOnce) : Nat × Outcome :=
  if cfg.apiKey = none then
    (0, .thrown "Claude API Key가 설정되지 않았습니다.".data)
  else
    match net with
    | .noConn m => (1, .thrown m)
    | .resp st eb body =>
      if respOk st then (1, .ok (jsTrim body))
      else (1, .thrown (jsOrElse eb ("Claude API 오류: ".data ++ (Nat.repr st).data)))

/-- One line of the `GeminiProvider.translateStream` loop
(providers.js 459-475).  `parse` models `JSON.parse` followed by
`parsed.candidates?.[0]?.content?.parts?.[0]?.text`.  There is no
sentinel check here, only the `if (!data) continue` guard. -/
def geminiLineStep (parse : Str → Option Str) (full : Str) (line : Str) : Str × List StreamEv :=
  if startsP csEq "data: ".data line then
    let data := line.drop 6
    if data = [] then (full, [])
    else
      match parse data with
      | some t => if t = [] then (full, []) else (full ++ t, [.contentEv (full ++ t)])
      | none => (full, [])
  else (full, [])

/-- The whole `GeminiProvider.translateStream` read loop. -/
def geminiGo (parse : Str → Option Str) : List Str → Str → Str × List StreamEv
  | [], full => (full, [])
  | l :: ls, full =>
    let s1 := geminiLineStep parse full l
    let s2 := geminiGo parse ls s1.1
    (s2.1, s1.2 ++ s2.2)

/-- `GeminiProvider.translateStream` (providers.js 413-484). -/
def geminiTranslateStream (cfg : Config) (parse : Str → Option Str) (net : Net) : RunOut :=
  if cfg.apiKey = none then
    { events := [], fetches := 0,
      result := .thrown "Gemini API Key가 설정되지 않았습니다.".data }
  else
    match net with
    | .noConn m => { events := [.errorEv m], fetches := 1, result := .thrown m }
    | .resp st eb lines =>
      if respOk st then
        let r := geminiGo parse lines []
        { events := r.2 ++ [.doneEv (jsTrim r.1) none], fetches := 1,
          result := .ok (jsTrim r.1) }
      else
        let m := jsOrElse eb ("Gemini API 오류: ".data ++ (Nat.repr st).data)
        { events := [.errorEv m], fetches := 1, result := .thrown m }

/-- `GeminiProvider.translate` (providers.js 375-411), non-streaming. -/
def geminiTranslate (cfg : Config) (net : NetOnce) : Nat × Outcome :=
  if cfg.apiKey = none then
    (0, .thrown "Gemini API Key가 설정되지 않았습니다.".data)
  else
    match net with
    | .noConn m => (1, .thrown m)
    | .resp st eb body =>
      if respOk st then (1, .ok (jsTrim body))
      else (1, .thrown (jsOrElse eb ("Gemini API 오류: ".data ++ (Nat.repr st).data)))

/-- One line of the `OllamaProvider.translateStream` newline-delimited
JSON loop (providers.js 602-615).  `parse` models `JSON.parse` followed
by `parsed.message?.content`. -/
def ollamaLineStep (parse : Str → Option Str) (full : Str) (line : Str) : Str × List StreamEv :=
  if jsTrim line = [] then (full, [])
  else
    match parse line with
    | some c => if c = [] then (full, []) else (full ++ c, [.contentEv (full ++ c)])
    | none => (full, [])

/-- The whole `OllamaProvider.translateStream` read loop. -/
def ollamaGo (parse : Str → Option Str) : List Str → Str → Str × List StreamEv
  | [], full => (full, [])
  | l :: ls, full =>
    let s1 := ollamaLineStep parse full l
    let s2 := ollamaGo parse ls s1.1
    (s2.1, s1.2 ++ s2.2)

/-- `OllamaProvider.translateStream` (providers.js 564-624).  Note that a
non-ok response throws a fixed connection-error message built only from
the status — the response body is never parsed. -/
def ollamaTranslateStream (_cfg : Config) (parse : Str → Option Str) (net : Net) : RunOut :=
  match net with
  | .noConn m => { events := [.errorEv m], fetches := 1, result := .thrown m }
  | .resp st _ lines =>
    if respOk st then
      let r := ollamaGo parse lines []
      { events := r.2 ++ [.doneEv (jsTrim r.1) none], fetches := 1,
        result := .ok (jsTrim r.1) }
    else
      let m := "Ollama 연결 오류: ".data ++ (Nat.repr st).data ++
        ". 서버가 실행 중인지 확인하세요.".data
      { events := [.errorEv m], fetches := 1, result := .thrown m }

/-- One line of the `OpenAICompatibleProvider.translateStream` loop
(providers.js 979-995) — textually the same loop as the OpenAI one. -/
def oaiCompatLineStep (parse : Str → Option Str) (full : Str) (line : Str) :
    Str × List StreamEv :=
  if startsP csEq "data: ".data line then
    let data := line.drop 6
    if data = "[DONE]".data then (full, [])
    else
      match parse data with
      | some delta =>
        if delta = [] then (full, [])
        else (full ++ delta, [.contentEv (full ++ delta)])
      | none => (full, [])
  else (full, [])

/-- The whole `OpenAICompatibleProvider.translateStream` read loop. -/
def oaiCompatGo (parse : Str → Option Str) : List Str → Str → Str × List StreamEv
  | [], full => (full, [])
  | l :: ls, full =>
    let s1 := oaiCompatLineStep parse full l
    let s2 := oaiCompatGo parse ls s1.1
    (s2.1, s1.2 ++ s2.2)

/-- `OpenAICompatibleProvider.translateStream` (providers.js 931-1004).
The missing base URL (not the API key — it is optional here) is thrown
before the `try`. -/
def oaiCompatTranslateStream (cfg : Config) (parse : Str → Option Str) (net : Net) : RunOut :=
  if cfg.baseUrl = none then
    { events := [], fetches := 0,
      result := .thrown "OpenAI 호환 API의 Base URL이 설정되지 않았습니다.".data }
  else
    match net with
    | .noConn m => { events := [.errorEv m], fetches := 1, result := .thrown m }
    | .resp st eb lines =>
      if respOk st then
        let r := oaiCompatGo parse lines []
        { events := r.2 ++ [.doneEv (jsTrim r.1) none], fetches := 1,
          result := .ok (jsTrim r.1) }
      else
        let m := jsOrElse eb ("API 오류: ".data ++ (Nat.repr st).data)
        { events := [.errorEv m], fetches := 1, result := .thrown m }

/-- Parsed shape of `parsed.choices?.[0]?.delta` for the llama.cpp loop:
the `reasoning_content` and `content` fields. -/
structure OaiDelta where
  reasoningContent : Option Str
  content : Option Str
deriving DecidableEq

/-- Mutable state of the llama.cpp decoding loop
(`fullText`, `fullReasoning`). -/
structure LlamaSt where
  fullText : Str
  fullReasoning : Str
deriving DecidableEq

/-- The `<think>`-tag split performed inline by
`LlamaCppProvider.translateStream` on the accumulated `fullText`
(providers.js 760-774 and again 797-810): find the first `<think>`
(case-sensitive `indexOf`); if a first `</think>` exists take the text
between them (JavaScript `substring` swaps its arguments when reversed)
and delete the pair from the output, otherwise take everything after
`<think>` and cut the output there.  Both halves are then cleaned with
`replace(/<\/?think>/g, '')` (case-sensitive) and trimmed.  Returns
`(thinking, output)`; `none` when no `<think>` is present. -/
def llamaThinkSplit (fullText : Str) : Option (Str × Str) :=
  match firstIdxP csEq (tagOpen wThink) fullText with
  | none => none
  | some ts =>
    let p :=
      match firstIdxP csEq (tagClose wThink) fullText with
      | some te => (jsSubstring fullText (ts + 7) te,
          jsSubstring fullText 0 ts ++ fullText.drop (te + 8))
      | none => (fullText.drop (ts + 7), jsSubstring fullText 0 ts)
    some (jsTrim (stripTag csEq wThink p.1), jsTrim (stripTag csEq wThink p.2))

/-- One line of the `LlamaCppProvider.translateStream` loop
(providers.js 735-789).  `parse` models `JSON.parse` followed by
`parsed.choices?.[0]?.delta`. -/
def llamaLineStep (parse : Str → Option OaiDelta) (st : LlamaSt) (line : Str) :
    LlamaSt × List StreamEv :=
  if startsP csEq "data: ".data line then
    let data := line.drop 6
    if data = "[DONE]".data then (st, [])
    else
      match parse data with
      | none => (st, [])
      | some d =>
        let s1 :=
          match d.reasoningContent with
          | some rc =>
            if rc = [] then (st, [])
            else
              let acc := st.fullReasoning ++ rc
              ({ st with fullReasoning := acc }, [StreamEv.reasoningEv acc])
          | none => (st, [])
        match d.content with
        | some c =>
          if c = [] then s1
          else
            let ft := s1.1.fullText ++ c
            let st2 : LlamaSt := { s1.1 with fullText := ft }
            match llamaThinkSplit ft with
            | none => (st2, s1.2 ++ [StreamEv.contentEv ft])
            | some (thinking, output) =>
              let evR := if thinking = [] then [] else [StreamEv.reasoningEv thinking]
              (st2, s1.2 ++ evR ++ [StreamEv.contentEv output])
        | none => s1
  else (st, [])

/-- The whole `LlamaCppProvider.translateStream` read loop. -/
def llamaGo (parse : Str → Option OaiDelta) : List Str → LlamaSt → LlamaSt × List StreamEv
  | [], st => (st, [])
  | l :: ls, st =>
    let s1 := llamaLineStep parse st l
    let s2 := llamaGo parse ls s1.1
    (s2.1, s1.2 ++ s2.2)

/-- Final cleanup of `LlamaCppProvider.translateStream`
(providers.js 792-812): the same `<think>` split applied once more to the
final `fullText`, defaulting to `(fullReasoning, fullText)` cleaned the
same way when no tag is present. -/
def llamaFinalSplit (st : LlamaSt) : Str × Str :=
  match llamaThinkSplit st.fullText with
  | some p => p
  | none => (jsTrim (stripTag csEq wThink st.fullReasoning),
      jsTrim (stripTag csEq wThink st.fullText))

/-- `LlamaCppProvider.translateStream` (providers.js 699-818).  No API
key is required; a non-ok response throws a fixed connection-error
message built only from the status. -/
def llamaTranslateStream (_cfg : Config) (parse : Str → Option OaiDelta) (net : Net) : RunOut :=
  match net with
  | .noConn m => { events := [.errorEv m], fetches := 1, result := .thrown m }
  | .resp st _ lines =>
    if respOk st then
      let r := llamaGo parse lines ⟨[], []⟩
      let fin := llamaFinalSplit r.1
      { events := r.2 ++ [.doneEv fin.2 (some fin.1)], fetches := 1,
        result := .ok fin.2 }
    else
      let m := "llama.cpp 연결 오류: ".data ++ (Nat.repr st).data ++
        ". 서버가 실행 중인지 확인하세요.".data
      { events := [.errorEv m], fetches := 1, result := .thrown m }

/-- `BaseProvider.getLanguageName` (providers.js 48-67): the fixed
code→name table, falling back to the code itself. -/
def getLanguageName (code : Str) : Str :=
  if code = "auto".data then "auto-detected language".data
  else if code = "ko".data then "Korean".data
  else if code = "en".data then "English".data
  else if code = "ja".data then "Japanese".data
  else if code = "zh".data then "Chinese".data
  else if code = "es".data then "Spanish".data
  else if code = "fr".data then "French".data
  else if code = "de".data then "German".data
  else if code = "ru".data then "Russian".data
  else if code = "pt".data then "Portuguese".data
  else if code = "it".data then "Italian".data
  else if code = "vi".data then "Vietnamese".data
  else if code = "th".data then "Thai".data
  else if code = "id".data then "Indonesian".data
  else if code = "ar".data then "Arabic".data
  else code

/-- `BaseProvider.buildPrompt` (providers.js 38-46): three successive
global replacements, in this order, on the user prompt template. -/
def buildPrompt (text sourceLang targetLang userPrompt : Str) : Str :=
  let sourceLangName := getLanguageName sourceLang
  let targetLangName := getLanguageName targetLang
  jsReplaceAll "{text}".data text
    (jsReplaceAll "{target_lang}".data targetLangName
      (jsReplaceAll "{source_lang}".data sourceLangName userPrompt))

/-- One stored history record (`HistoryManager.add`'s `item`,
charuser/script.js 141-151; the `id` and `timestamp` are produced by the
environment and passed through). -/
structure HistRecord where
  id : Str
  timestamp : Str
  sourceLang : Str
  targetLang : Str
  sourceText : Str
  targetText : Str
  provider : Str
  model : Str
deriving DecidableEq

/-- `HistoryManager.MAX_ITEMS` (charuser/script.js 115). -/
def maxItems : Nat := 100

/-- `HistoryManager.add` (charuser/script.js 141-163): `unshift` the new
item, then `slice(0, MAX_ITEMS)` when the length exceeds the bound. -/
def historyAdd (history : List HistRecord) (item : HistRecord) : List HistRecord :=
  let h2 := item :: history
  if h2.length > maxItems then h2.take maxItems else h2

/-- Lower-casing of a whole string (`String.prototype.toLowerCase`). -/
def lcStr (cs : Str) : Str := cs.map lcChar

/-- The per-record match predicate of `HistoryManager.search`
(charuser/script.js 186-189). -/
def searchMatches (lowerQuery : Str) (item : HistRecord) : Bool :=
  containsP csEq lowerQuery (lcStr item.sourceText) ||
    containsP csEq lowerQuery (lcStr item.targetText)

/-- `HistoryManager.search` (charuser/script.js 180-190): an empty or
whitespace-only query returns the whole history; otherwise filter by
case-insensitive containment in `sourceText` or `targetText`. -/
def historySearch (history : List HistRecord) (query : Str) : List HistRecord :=
  if query = [] ∨ jsTrim query = [] then history
  else history.filter (searchMatches (lcStr query))

/-- `HistoryManager.remove` (charuser/script.js 165-173). -/
def historyRemove (history : List HistRecord) (rid : Str) : List HistRecord × Bool :=
  if history.any (fun item => item.id = rid) then
    (history.filter (fun item => ¬ item.id = rid), true)
  else (history, false)

/-- The successive arguments passed to `onContent`, in order. -/
def contentArgs (evs : List StreamEv) : List Str :=
  evs.filterMap fun e =>
    match e with
    | .contentEv s => some s
    | _ => none

/-- The successive arguments passed to `onReasoning`, in order. -/
def reasoningArgs (evs : List StreamEv) : List Str :=
  evs.filterMap fun e =>
    match e with
    | .reasoningEv s => some s
    | _ => none

/-- Number of `onError` invocations. -/
def errCount (evs : List StreamEv) : Nat :=
  (evs.filter fun e =>
    match e with
    | .errorEv _ => true
    | _ => false).length

/-- Number of `onDone` invocations. -/
def doneCount (evs : List StreamEv) : Nat :=
  (evs.filter fun e =>
    match e with
    | .doneEv _ _ => true
    | _ => false).length

/-- A configuration with no API key. -/
def cfgNoKey : Config := ⟨none, none, none⟩

/-- A configuration with an API key (and base URL) present. -/
def cfgWithKey : Config := ⟨some "k".data, some "u".data, none⟩

/-- The SSE payload `{"choices":[{"delta":{"content":"x"}}]}`. -/
def payloadContentX : Str :=
  "\x7b\"choices\":[\x7b\"delta\":\x7b\"content\":\"x\"\x7d\x7d]\x7d".data

/-- `JSON.parse` + `parsed.choices?.[0]?.delta?.content` as realised on the
single payload `payloadContentX` (every other line fails to parse). -/
def parseChoicesX : Str → Option Str :=
  fun s => if s = payloadContentX then some "x".data else none

/-- The stream line carrying `payloadContentX`. -/
def lineContentX : Str := "data: ".data ++ payloadContentX

/-- The sentinel stream line `data: [DONE]`. -/
def sentinelLine : Str := "data: [DONE]".data

/-- The SSE payload `{"choices":[{"delta":{"content":"A "}}]}`. -/
def payloadDeltaA : Str :=
  "\x7b\"choices\":[\x7b\"delta\":\x7b\"content\":\"A \"\x7d\x7d]\x7d".data

/-- The SSE payload `{"choices":[{"delta":{"content":"<think>x"}}]}`. -/
def payloadDeltaThink : Str :=
  "\x7b\"choices\":[\x7b\"delta\":\x7b\"content\":\"<think>x\"\x7d\x7d]\x7d".data

/-- `JSON.parse` + `parsed.choices?.[0]?.delta` as realised on the two
llama.cpp payloads above. -/
def parseLlamaDeltas : Str → Option OaiDelta :=
  fun s =>
    if s = payloadDeltaA then some ⟨none, some "A ".data⟩
    else if s = payloadDeltaThink then some ⟨none, some "<think>x".data⟩
    else none

/-- A sample stored history record. -/
def histRecOld : HistRecord :=
  ⟨"old".data, [], [], [], "hello world".data, "annyeong".data, [], []⟩

/-- Another sample history record, distinct from `histRecOld`. -/
def histRecNew : HistRecord :=
  ⟨"new".data, [], [], [], "bye".data, "jalga".data, [], []⟩

theorem isPrefixB_append (a t : Str) : isPrefixB a (a ++ t) = true := by
  induction a with
  | nil => rfl
  | cons c cs ih => simp [isPrefixB, ih]

theorem chainExtB_tail {a : Str} {l : List Str} (h : chainExtB (a :: l) = true) :
    chainExtB l = true := by
  cases l with
  | nil => rfl
  | cons b r =>
    simp only [chainExtB, Bool.and_eq_true] at h
    exact h.2

theorem contentArgs_append (a b : List StreamEv) :
    contentArgs (a ++ b) = contentArgs a ++ contentArgs b := by
  simp [contentArgs]

theorem reasoningArgs_append (a b : List StreamEv) :
    reasoningArgs (a ++ b) = reasoningArgs a ++ reasoningArgs b := by
  simp [reasoningArgs]

theorem sseLineStep_spec (parse : Str → Option Str) (full line : Str) :
    ((sseLineStep parse full line).1 = full ∧ (sseLineStep parse full line).2 = []) ∨
    (∃ d, (sseLineStep parse full line).1 = full ++ d ∧
      (sseLineStep parse full line).2 = [.contentEv (full ++ d)]) := by
  simp only [sseLineStep]
  split
  · split
    · exact Or.inl ⟨rfl, rfl⟩
    · split
      · split
        · exact Or.inl ⟨rfl, rfl⟩
        · exact Or.inr ⟨_, rfl, rfl⟩
      · exact Or.inl ⟨rfl, rfl⟩
  · exact Or.inl ⟨rfl, rfl⟩

theorem sseGo_snd (parse : Str → Option Str) (l : Str) (ls : List Str) (full : Str) :
    sseGo parse (l :: ls) full =
      ((sseGo parse ls (sseLineStep parse full l).1).1,
        (sseLineStep parse full l).2 ++ (sseGo parse ls (sseLineStep parse full l).1).2) := by
  simp [sseGo]

theorem sseGo_chain (parse : Str → Option Str) (ls : List Str) (full : Str) :
    chainExtB (full :: contentArgs (sseGo parse ls full).2) = true := by
  induction ls generalizing full with
  | nil => rfl
  | cons l ls ih =>
    rw [sseGo_snd, contentArgs_append]
    rcases sseLineStep_spec parse full l with ⟨h1, h2⟩ | ⟨d, h1, h2⟩
    · rw [h1, h2]
      simpa using ih full
    · rw [h1, h2]
      have hc : contentArgs [StreamEv.contentEv (full ++ d)] = [full ++ d] := rfl
      rw [hc]
      simp only [List.cons_append, List.nil_append, chainExtB, Bool.and_eq_true]
      exact ⟨isPrefixB_append full d, ih (full ++ d)⟩

theorem sseGo_reasoning (parse : Str → Option Str) (ls : List Str) (full : Str) :
    reasoningArgs (sseGo parse ls full).2 = [] := by
  induction ls generalizing full with
  | nil => rfl
  | cons l ls ih =>
    rw [sseGo_snd, reasoningArgs_append]
    rcases sseLineStep_spec parse full l with ⟨h1, h2⟩ | ⟨d, h1, h2⟩ <;> rw [h1, h2]
    · rw [show reasoningArgs ([] : List StreamEv) = [] from rfl, List.nil_append]
      exact ih full
    · rw [show reasoningArgs [StreamEv.contentEv (full ++ d)] = [] from rfl, List.nil_append]
      exact ih (full ++ d)

/-- Claim C1 (amended): across one streamed response, the `onContent`
arguments are an append-only chain (each successive string extends the
previous one) for the OpenAI adapter, whose argument is the raw
accumulated text — in every branch of `openAITranslateStream`, and
`onReasoning` is never invoked there.  The llama.cpp adapter does NOT
have this property (see the counterexample): its `onContent` argument is
recomputed from the accumulated text by `<think>`-tag removal and
trimming, which can retract previously delivered bytes. -/
theorem c1_content_monotonic_openai (cfg : Config) (parse : Str → Option Str) (net : Net) :
    chainExtB (contentArgs (openAITranslateStream cfg parse net).events) = true ∧
    reasoningArgs (openAITranslateStream cfg parse net).events = [] := by
  by_cases hk : cfg.apiKey = none
  · unfold openAITranslateStream
    rw [if_pos hk]
    exact ⟨rfl, rfl⟩
  · cases net with
    | noConn m =>
      unfold openAITranslateStream
      rw [if_neg hk]
      exact ⟨rfl, rfl⟩
    | resp st eb lines =>
      by_cases hr : respOk st = true
      · have he : (openAITranslateStream cfg parse (.resp st eb lines)).events =
            (sseGo parse lines []).2 ++
              [StreamEv.doneEv (jsTrim (sseGo parse lines []).1) none] := by
          unfold openAITranslateStream
          rw [if_neg hk]
          show (if respOk st = true then _ else _ : RunOut).events = _
          rw [if_pos hr]
        rw [he]
        constructor
        · rw [contentArgs_append,
            show contentArgs [StreamEv.doneEv (jsTrim (sseGo parse lines []).1) none] = []
              from rfl, List.append_nil]
          exact chainExtB_tail (sseGo_chain parse lines [])
        · rw [reasoningArgs_append,
            show reasoningArgs [StreamEv.doneEv (jsTrim (sseGo parse lines []).1) none] = []
              from rfl, List.append_nil]
          exact sseGo_reasoning parse lines []
      · have he : (openAITranslateStream cfg parse (.resp st eb lines)).events =
            [StreamEv.errorEv (jsOrElse eb ("OpenAI API 오류: ".data ++ (Nat.repr st).data))] := by
          unfold openAITranslateStream
          rw [if_neg hk]
          show (if respOk st = true then _ else _ : RunOut).events = _
          rw [if_neg hr]
        rw [he]
        exact ⟨rfl, rfl⟩

/-- Claim C1 (counterexample): on the llama.cpp adapter's streaming path,
the deltas `"A "` then `"<think>x"` produce the `onContent` argument
sequence `["A ", "A"]` — the second call retracts the trailing space
(tag-split plus trim), so the sequence is not an append-only
prefix-extension chain, refuting the claim for this adapter. -/
theorem c1_counterexample_llamacpp :
    contentArgs ((llamaTranslateStream cfgNoKey parseLlamaDeltas
      (.resp 200 none ["data: ".data ++ payloadDeltaA,
        "data: ".data ++ payloadDeltaThink])).events) = ["A ".data, "A".data] ∧
    chainExtB ["A ".data, "A".data] = false := by
  exact ⟨by decide, by decide⟩

theorem sseLineStep_sentinel (parse : Str → Option Str) (full : Str) :
    sseLineStep parse full sentinelLine = (full, []) := rfl

theorem sseGo_append_sentinel (parse : Str → Option Str) (ls : List Str) (full : Str) :
    sseGo parse (ls ++ [sentinelLine]) full = sseGo parse ls full := by
  induction ls generalizing full with
  | nil => simp [sseGo_snd, sseLineStep_sentinel, sseGo]
  | cons l ls ih => rw [List.cons_append, sseGo_snd, sseGo_snd, ih]

theorem doneCount_append (a b : List StreamEv) :
    doneCount (a ++ b) = doneCount a + doneCount b := by
  simp [doneCount]

theorem sseGo_done (parse : Str → Option Str) (ls : List Str) (full : Str) :
    doneCount (sseGo parse ls full).2 = 0 := by
  induction ls generalizing full with
  | nil => rfl
  | cons l ls ih =>
    rw [sseGo_snd, doneCount_append]
    rcases sseLineStep_spec parse full l with ⟨h1, h2⟩ | ⟨d, h1, h2⟩ <;> rw [h1, h2]
    · rw [show doneCount ([] : List StreamEv) = 0 from rfl, Nat.zero_add]
      exact ih full
    · rw [show doneCount [StreamEv.contentEv (full ++ d)] = 0 from rfl, Nat.zero_add]
      exact ih (full ++ d)

theorem openAIStream_ok_events (cfg : Config) (parse : Str → Option Str)
    (st : Nat) (eb : Option Str) (lines : List Str)
    (hk : ¬ cfg.apiKey = none) (hr : respOk st = true) :
    (openAITranslateStream cfg parse (.resp st eb lines)).events =
      (sseGo parse lines []).2 ++
        [StreamEv.doneEv (jsTrim (sseGo parse lines []).1) none] := by
  unfold openAITranslateStream
  rw [if_neg hk]
  show (if respOk st = true then _ else _ : RunOut).events = _
  rw [if_pos hr]

theorem oaiCompatLineStep_eq : oaiCompatLineStep = sseLineStep := rfl

theorem oaiCompatGo_eq (parse : Str → Option Str) (ls : List Str) (full : Str) :
    oaiCompatGo parse ls full = sseGo parse ls full := by
  induction ls generalizing full with
  | nil => rfl
  | cons l ls ih =>
    show ((oaiCompatGo parse ls (oaiCompatLineStep parse full l).1).1,
      (oaiCompatLineStep parse full l).2 ++
        (oaiCompatGo parse ls (oaiCompatLineStep parse full l).1).2) = _
    rw [oaiCompatLineStep_eq, ih, sseGo_snd]

theorem oaiCompatStream_ok_events (cfg : Config) (parse : Str → Option Str)
    (st : Nat) (eb : Option Str) (lines : List Str)
    (hb : ¬ cfg.baseUrl = none) (hr : respOk st = true) :
    (oaiCompatTranslateStream cfg parse (.resp st eb lines)).events =
      (sseGo parse lines []).2 ++
        [StreamEv.doneEv (jsTrim (sseGo parse lines []).1) none] := by
  unfold oaiCompatTranslateStream
  rw [if_neg hb]
  show (if respOk st = true then _ else _ : RunOut).events = _
  rw [if_pos hr, oaiCompatGo_eq]

/-- Claim C6 (amended): in the OpenAI and OpenAI-compatible decoding
loops, a `data: [DONE]` line never produces a content or reasoning
callback and is dropped rather than surfaced as an error (the line step
returns the state unchanged with no events); on every 2xx stream the
terminal done callback fires exactly once; and appending the sentinel as
the final line changes nothing, so no content/reasoning callback follows
the sentinel *when it is the last data line*.  The loops do not stop at
the sentinel, however, so a stream that carries a parseable data line
after `[DONE]` still produces a content callback for it (see the
counterexample) — the unconditional "no further events after the
sentinel" part of the claim fails. -/
theorem c6_sentinel_handling :
    (∀ parse full, sseLineStep parse full sentinelLine = (full, []) ∧
      oaiCompatLineStep parse full sentinelLine = (full, [])) ∧
    (∀ cfg parse st eb lines, ¬ cfg.apiKey = none → respOk st = true →
      doneCount (openAITranslateStream cfg parse (.resp st eb lines)).events = 1) ∧
    (∀ cfg parse st eb lines, ¬ cfg.baseUrl = none → respOk st = true →
      doneCount (oaiCompatTranslateStream cfg parse (.resp st eb lines)).events = 1) ∧
    (∀ cfg parse st eb lines,
      openAITranslateStream cfg parse (.resp st eb (lines ++ [sentinelLine])) =
        openAITranslateStream cfg parse (.resp st eb lines)) ∧
    (∀ cfg parse st eb lines,
      oaiCompatTranslateStream cfg parse (.resp st eb (lines ++ [sentinelLine])) =
        oaiCompatTranslateStream cfg parse (.resp st eb lines)) := by
  refine ⟨fun parse full => ⟨rfl, rfl⟩, ?_, ?_, ?_, ?_⟩
  · intro cfg parse st eb lines hk hr
    rw [openAIStream_ok_events cfg parse st eb lines hk hr, doneCount_append,
      sseGo_done, show doneCount [StreamEv.doneEv (jsTrim (sseGo parse lines []).1) none] = 1
        from rfl]
  · intro cfg parse st eb lines hb hr
    rw [oaiCompatStream_ok_events cfg parse st eb lines hb hr, doneCount_append,
      sseGo_done, show doneCount [StreamEv.doneEv (jsTrim (sseGo parse lines []).1) none] = 1
        from rfl]
  · intro cfg parse st eb lines
    simp only [openAITranslateStream, sseGo_append_sentinel]
  · intro cfg parse st eb lines
    simp only [oaiCompatTranslateStream, oaiCompatGo_eq, sseGo_append_sentinel]

/-- Claim C6 (counterexample): the loop does not stop reading at the
sentinel.  In a stream whose first line is `data: [DONE]` and whose
second line is a well-formed delta payload, the sentinel itself produces
no event, yet a content callback still fires afterwards — refuting
"no further content/reasoning callbacks after the sentinel is
observed". -/
theorem c6_counterexample_content_after_sentinel :
    sseLineStep parseChoicesX [] sentinelLine = ([], []) ∧
    (openAITranslateStream cfgWithKey parseChoicesX
      (.resp 200 none [sentinelLine, lineContentX])).events =
      [StreamEv.contentEv "x".data, StreamEv.doneEv "x".data none] := by
  exact ⟨by decide, by decide⟩

/-- Witness for C6: the done-count conjuncts applied on a concrete 2xx
stream. -/
theorem c6_witness :
    doneCount (openAITranslateStream cfgWithKey parseChoicesX
      (.resp 200 none [lineContentX])).events = 1 ∧
    doneCount (oaiCompatTranslateStream cfgWithKey parseChoicesX
      (.resp 200 none [lineContentX])).events = 1 := by
  exact ⟨c6_sentinel_handling.2.1 cfgWithKey parseChoicesX 200 none [lineContentX]
      (by decide) (by decide),
    c6_sentinel_handling.2.2.1 cfgWithKey parseChoicesX 200 none [lineContentX]
      (by decide) (by decide)⟩

theorem openAIStream_http_err (cfg : Config) (parse : Str → Option Str)
    (st : Nat) (eb : Option Str) (lines : List Str)
    (hk : ¬ cfg.apiKey = none) (hr : respOk st = false) :
    openAITranslateStream cfg parse (.resp st eb lines) =
      ⟨[.errorEv (jsOrElse eb ("OpenAI API 오류: ".data ++ (Nat.repr st).data))], 1,
        .thrown (jsOrElse eb ("OpenAI API 오류: ".data ++ (Nat.repr st).data))⟩ := by
  unfold openAITranslateStream
  rw [if_neg hk]
  show (if respOk st = true then _ else _ : RunOut) = _
  rw [if_neg (by simp [hr])]

theorem claudeStream_http_err (cfg : Config) (parse : Str → Option ClaudeMsg)
    (st : Nat) (eb : Option Str) (lines : List Str)
    (hk : ¬ cfg.apiKey = none) (hr : respOk st = false) :
    claudeTranslateStream cfg parse (.resp st eb lines) =
      ⟨[.errorEv (jsOrElse eb ("Claude API 오류: ".data ++ (Nat.repr st).data))], 1,
        .thrown (jsOrElse eb ("Claude API 오류: ".data ++ (Nat.repr st).data))⟩ := by
  unfold claudeTranslateStream
  rw [if_neg hk]
  show (if respOk st = true then _ else _ : RunOut) = _
  rw [if_neg (by simp [hr])]

/-- Claim C3 (amended): for the OpenAI and Claude adapters, the error
paths *inside* the `try` block — connection failure and non-2xx HTTP
response — invoke `onError` exactly once and then fail the call; but the
missing-API-key configuration error is thrown *before* the `try` block,
so that path fails the call with `onError` invoked zero times, not once. -/
theorem c3_onerror_discipline :
    (∀ cfg parse net, cfg.apiKey = none →
      errCount (openAITranslateStream cfg parse net).events = 0 ∧
      (openAITranslateStream cfg parse net).result =
        .thrown "OpenAI API Key가 설정되지 않았습니다.".data) ∧
    (∀ cfg parse m, ¬ cfg.apiKey = none →
      errCount (openAITranslateStream cfg parse (.noConn m)).events = 1 ∧
      (openAITranslateStream cfg parse (.noConn m)).result = .thrown m) ∧
    (∀ cfg parse st eb lines, ¬ cfg.apiKey = none → respOk st = false →
      errCount (openAITranslateStream cfg parse (.resp st eb lines)).events = 1 ∧
      (openAITranslateStream cfg parse (.resp st eb lines)).result =
        .thrown (jsOrElse eb ("OpenAI API 오류: ".data ++ (Nat.repr st).data))) ∧
    (∀ cfg parse net, cfg.apiKey = none →
      errCount (claudeTranslateStream cfg parse net).events = 0 ∧
      (claudeTranslateStream cfg parse net).result =
        .thrown "Claude API Key가 설정되지 않았습니다.".data) ∧
    (∀ cfg parse m, ¬ cfg.apiKey = none →
      errCount (claudeTranslateStream cfg parse (.noConn m)).events = 1 ∧
      (claudeTranslateStream cfg parse (.noConn m)).result = .thrown m) ∧
    (∀ cfg parse st eb lines, ¬ cfg.apiKey = none → respOk st = false →
      errCount (claudeTranslateStream cfg parse (.resp st eb lines)).events = 1 ∧
      (claudeTranslateStream cfg parse (.resp st eb lines)).result =
        .thrown (jsOrElse eb ("Claude API 오류: ".data ++ (Nat.repr st).data))) := by
  refine ⟨?_, ?_, ?_, ?_, ?_, ?_⟩
  · intro cfg parse net hk
    unfold openAITranslateStream
    rw [if_pos hk]
    exact ⟨rfl, rfl⟩
  · intro cfg parse m hk
    unfold openAITranslateStream
    rw [if_neg hk]
    exact ⟨rfl, rfl⟩
  · intro cfg parse st eb lines hk hr
    rw [openAIStream_http_err cfg parse st eb lines hk hr]
    exact ⟨rfl, rfl⟩
  · intro cfg parse net hk
    unfold claudeTranslateStream
    rw [if_pos hk]
    exact ⟨rfl, rfl⟩
  · intro cfg parse m hk
    unfold claudeTranslateStream
    rw [if_neg hk]
    exact ⟨rfl, rfl⟩
  · intro cfg parse st eb lines hk hr
    rw [claudeStream_http_err cfg parse st eb lines hk hr]
    exact ⟨rfl, rfl⟩

/-- Claim C3 (counterexample): on the missing-API-key path the call
fails, but the `onError` callback fires zero times (the throw happens
before the `try` block wiring the callbacks), refuting "the missing-API-key
error path also invokes onError exactly once". -/
theorem c3_counterexample_no_onerror :
    (openAITranslateStream cfgNoKey (fun _ => none) (.resp 200 none [])).events = [] ∧
    (openAITranslateStream cfgNoKey (fun _ => none) (.resp 200 none [])).result =
      .thrown "OpenAI API Key가 설정되지 않았습니다.".data := ⟨rfl, rfl⟩

/-- Witness for C3: the amended theorem applied on concrete inputs. -/
theorem c3_witness :
    errCount (openAITranslateStream cfgWithKey (fun _ => none) (.noConn "boom".data)).events = 1 ∧
    errCount (openAITranslateStream cfgNoKey (fun _ => none) (.resp 200 none [])).events = 0 ∧
    errCount (claudeTranslateStream cfgWithKey (fun _ => none)
      (.resp 401 (some "bad key".data) [])).events = 1 :=
  ⟨(c3_onerror_discipline.2.1 cfgWithKey (fun _ => none) "boom".data (by decide)).1,
    (c3_onerror_discipline.1 cfgNoKey (fun _ => none) (.resp 200 none []) (by decide)).1,
    (c3_onerror_discipline.2.2.2.2.2 cfgWithKey (fun _ => none) 401 (some "bad key".data) []
      (by decide) (by decide)).1⟩

/-- Claim C4 (amended): the OpenAI-style adapters (OpenAI shown; Claude,
Gemini and the OpenAI-compatible one use the same line) surface the
structured error-body message when it is present and non-empty, and fall
back to a generic message containing the status number when the body
could not be parsed; the Ollama and llama.cpp adapters, however, never
consult the body at all — every non-2xx response fails with a fixed
connection-error message built from the status. -/
theorem c4_error_body_extraction :
    (∀ cfg parse st eb lines m, ¬ cfg.apiKey = none → respOk st = false →
      eb = some m → ¬ m = [] →
      (openAITranslateStream cfg parse (.resp st eb lines)).result = .thrown m) ∧
    (∀ cfg parse st lines, ¬ cfg.apiKey = none → respOk st = false →
      (openAITranslateStream cfg parse (.resp st none lines)).result =
        .thrown ("OpenAI API 오류: ".data ++ (Nat.repr st).data)) ∧
    (∀ cfg parse st eb lines, respOk st = false →
      (ollamaTranslateStream cfg parse (.resp st eb lines)).result =
        .thrown ("Ollama 연결 오류: ".data ++ (Nat.repr st).data ++
          ". 서버가 실행 중인지 확인하세요.".data)) ∧
    (∀ cfg parse st eb lines, respOk st = false →
      (llamaTranslateStream cfg parse (.resp st eb lines)).result =
        .thrown ("llama.cpp 연결 오류: ".data ++ (Nat.repr st).data ++
          ". 서버가 실행 중인지 확인하세요.".data)) := by
  refine ⟨?_, ?_, ?_, ?_⟩
  · intro cfg parse st eb lines m hk hr heb hm
    rw [openAIStream_http_err cfg parse st eb lines hk hr, heb]
    show Outcome.thrown (jsOrElse (some m) _) = _
    simp only [jsOrElse]
    rw [if_neg hm]
  · intro cfg parse st lines hk hr
    rw [openAIStream_http_err cfg parse st none lines hk hr]
    rfl
  · intro cfg parse st eb lines hr
    unfold ollamaTranslateStream
    show (if respOk st = true then _ else _ : RunOut).result = _
    rw [if_neg (by simp [hr])]
  · intro cfg parse st eb lines hr
    unfold llamaTranslateStream
    show (if respOk st = true then _ else _ : RunOut).result = _
    rw [if_neg (by simp [hr])]

/-- Claim C4 (counterexample): a 401 response with body
`{"error":{"message":"bad key"}}` on the Ollama adapter surfaces the
generic connection-error message, not `"bad key"` — the body is never
parsed, refuting "for every adapter". -/
theorem c4_counterexample_ollama_generic :
    (ollamaTranslateStream cfgNoKey (fun _ => none)
      (.resp 401 (some "bad key".data) [])).result =
      .thrown "Ollama 연결 오류: 401. 서버가 실행 중인지 확인하세요.".data ∧
    ¬ ("Ollama 연결 오류: 401. 서버가 실행 중인지 확인하세요.".data = "bad key".data) := by
  exact ⟨by decide, by decide⟩

/-- Witness for C4: the amended theorem applied on concrete inputs
(status 401, body message `bad key`). -/
theorem c4_witness :
    (openAITranslateStream cfgWithKey (fun _ => none)
      (.resp 401 (some "bad key".data) [])).result = .thrown "bad key".data ∧
    (llamaTranslateStream cfgNoKey (fun _ => none)
      (.resp 500 (some "bad key".data) [])).result =
      .thrown ("llama.cpp 연결 오류: ".data ++ (Nat.repr 500).data ++
        ". 서버가 실행 중인지 확인하세요.".data) :=
  ⟨c4_error_body_extraction.1 cfgWithKey (fun _ => none) 401 (some "bad key".data) []
      "bad key".data (by decide) (by decide) rfl (by decide),
    c4_error_body_extraction.2.2.2 cfgNoKey (fun _ => none) 500 (some "bad key".data) []
      (by decide)⟩

/-- Claim C5 (confirmed): for the three providers that require an API key
(OpenAI, Claude, Gemini), both `translate` and `translateStream` with a
config whose `apiKey` is absent fail with the provider's recognizable
missing-credential message before any `fetch` is issued (zero fetches,
no callbacks). -/
theorem c5_missing_key_fails_fast (cfg : Config) (h : cfg.apiKey = none) :
    (∀ parse net, openAITranslateStream cfg parse net =
      ⟨[], 0, .thrown "OpenAI API Key가 설정되지 않았습니다.".data⟩) ∧
    (∀ net, openAITranslate cfg net =
      (0, .thrown "OpenAI API Key가 설정되지 않았습니다.".data)) ∧
    (∀ parse net, claudeTranslateStream cfg parse net =
      ⟨[], 0, .thrown "Claude API Key가 설정되지 않았습니다.".data⟩) ∧
    (∀ net, claudeTranslate cfg net =
      (0, .thrown "Claude API Key가 설정되지 않았습니다.".data)) ∧
    (∀ parse net, geminiTranslateStream cfg parse net =
      ⟨[], 0, .thrown "Gemini API Key가 설정되지 않았습니다.".data⟩) ∧
    (∀ net, geminiTranslate cfg net =
      (0, .thrown "Gemini API Key가 설정되지 않았습니다.".data)) := by
  refine ⟨fun parse net => ?_, fun net => ?_, fun parse net => ?_, fun net => ?_,
    fun parse net => ?_, fun net => ?_⟩
  · unfold openAITranslateStream
    rw [if_pos h]
  · unfold openAITranslate
    rw [if_pos h]
  · unfold claudeTranslateStream
    rw [if_pos h]
  · unfold claudeTranslate
    rw [if_pos h]
  · unfold geminiTranslateStream
    rw [if_pos h]
  · unfold geminiTranslate
    rw [if_pos h]

/-- Witness for C5: the fail-fast theorem applied on a concrete keyless
configuration and concrete network behaviours. -/
theorem c5_witness :
    openAITranslateStream cfgNoKey (fun _ => none) (.noConn "down".data) =
      ⟨[], 0, .thrown "OpenAI API Key가 설정되지 않았습니다.".data⟩ ∧
    geminiTranslate cfgNoKey (.resp 200 none "hi".data) =
      (0, .thrown "Gemini API Key가 설정되지 않았습니다.".data) :=
  ⟨(c5_missing_key_fails_fast cfgNoKey rfl).1 (fun _ => none) (.noConn "down".data),
    (c5_missing_key_fails_fast cfgNoKey rfl).2.2.2.2.2 (.resp 200 none "hi".data)⟩

/-- Claim C8 (amended): placeholder substitution is textual and
case-sensitive, but it is performed as three *sequential* global passes
in the order `{source_lang}`, `{target_lang}`, `{text}`, so it is not
non-recursive: a value inserted by an earlier pass is re-scanned by the
later passes — inserting the value `"{text}"` as the source-language
name ends with the translated text substituted inside it, for every
target language and text (first conjunct).  Only the value inserted by
the final `{text}` pass is never re-scanned: substituting any text value
into the template `"{text}"` returns that value verbatim, even when it
itself contains placeholders (second conjunct). -/
theorem c8_sequential_substitution :
    (∀ tgt txt, buildPrompt txt "{text}".data tgt "{source_lang}".data = txt) ∧
    (∀ src tgt txt, buildPrompt txt src tgt "{text}".data = txt) := by
  have e2 : ∀ (tgt : Str) (r : Str),
      jsReplaceAll "{target_lang}".data r "{text}".data = "{text}".data := fun _ _ => rfl
  have e3 : ∀ txt : Str, jsReplaceAll "{text}".data txt "{text}".data = txt := by
    intro txt
    have h : jsReplaceAll "{text}".data txt "{text}".data = txt ++ [] := rfl
    simpa using h
  constructor
  · intro tgt txt
    show jsReplaceAll "{text}".data txt
      (jsReplaceAll "{target_lang}".data (getLanguageName tgt)
        (jsReplaceAll "{source_lang}".data (getLanguageName "{text}".data)
          "{source_lang}".data)) = txt
    rw [show jsReplaceAll "{source_lang}".data (getLanguageName "{text}".data)
        "{source_lang}".data = "{text}".data from rfl,
      e2 tgt (getLanguageName tgt)]
    exact e3 txt
  · intro src tgt txt
    show jsReplaceAll "{text}".data txt
      (jsReplaceAll "{target_lang}".data (getLanguageName tgt)
        (jsReplaceAll "{source_lang}".data (getLanguageName src)
          "{text}".data)) = txt
    rw [show ∀ r : Str, jsReplaceAll "{source_lang}".data r "{text}".data = "{text}".data
        from fun _ => rfl,
      e2 tgt (getLanguageName tgt)]
    exact e3 txt

/-- Claim C8 (counterexample): with template `"{source_lang}"`, source
language `"{text}"` (an unknown code, so its "language name" is itself)
and text `"T"`, the pipeline returns `"T"`: the value inserted for
`{source_lang}` was re-scanned and `{text}` was replaced inside it.  A
non-recursive substitution would have returned `"{text}"`. -/
theorem c8_counterexample_rescanned :
    buildPrompt "T".data "{text}".data "en".data "{source_lang}".data = "T".data ∧
    ¬ ("T".data = "{text}".data) := by
  exact ⟨by decide, by decide⟩

/-- Claim C9 (confirmed): the history log is bounded to the most recent
`maxItems = 100` records with oldest-eviction — after every `add` the
stored count is at most 100, the new record sits at the front
(newest-first), the result is a prefix of `item :: history` (so no newer
record is ever removed by an append), and when the bound was exactly
reached the evicted record is precisely the oldest (last) one. -/
theorem c9_history_bound (h : List HistRecord) (r : HistRecord) :
    (historyAdd h r).length ≤ maxItems ∧
    (historyAdd h r).head? = some r ∧
    (∃ t, r :: h = historyAdd h r ++ t) ∧
    (h.length = maxItems → historyAdd h r = r :: h.dropLast) := by
  simp only [historyAdd, maxItems]
  by_cases hl : (r :: h).length > 100
  · rw [if_pos hl]
    refine ⟨?_, ?_, ?_, ?_⟩
    · simp [List.length_take]
    · rw [show (100 : Nat) = 99 + 1 from rfl, List.take_succ_cons]
      rfl
    · exact ⟨(r :: h).drop 100, (List.take_append_drop 100 (r :: h)).symm⟩
    · intro hlen
      rw [show (100 : Nat) = 99 + 1 from rfl, List.take_succ_cons,
        List.dropLast_eq_take, hlen]
  · rw [if_neg hl]
    simp only [List.length_cons, gt_iff_lt, not_lt] at hl
    refine ⟨by simpa using hl, rfl, ⟨[], (List.append_nil _).symm⟩, ?_⟩
    intro hlen
    omega

/-- Witness for C9: appending to a history holding exactly 100 records
keeps the bound, puts the new record first and evicts exactly the oldest. -/
theorem c9_witness :
    (historyAdd (List.replicate 100 histRecOld) histRecNew).length ≤ maxItems ∧
    (historyAdd (List.replicate 100 histRecOld) histRecNew).head? = some histRecNew ∧
    historyAdd (List.replicate 100 histRecOld) histRecNew =
      histRecNew :: (List.replicate 100 histRecOld).dropLast :=
  ⟨(c9_history_bound (List.replicate 100 histRecOld) histRecNew).1,
    (c9_history_bound (List.replicate 100 histRecOld) histRecNew).2.1,
    (c9_history_bound (List.replicate 100 histRecOld) histRecNew).2.2.2 (by simp [maxItems])⟩

/-- Claim C10 (confirmed): `search` with an empty or whitespace-only
query returns the entire stored history; any other query returns exactly
the stored records whose `sourceText` or `targetText` contains the query
case-insensitively, as a sublist of the store (preserving the stored
newest-first order). -/
theorem c10_search_spec (h : List HistRecord) (q : Str) :
    (jsTrim q = [] → historySearch h q = h) ∧
    (¬ jsTrim q = [] → (historySearch h q).Sublist h ∧
      ∀ r, r ∈ historySearch h q ↔ r ∈ h ∧ searchMatches (lcStr q) r = true) := by
  constructor
  · intro ht
    unfold historySearch
    rw [if_pos (Or.inr ht)]
  · intro ht
    have hq : ¬ q = [] := fun hq0 => ht (by rw [hq0]; rfl)
    unfold historySearch
    rw [if_neg (by tauto)]
    exact ⟨List.filter_sublist _, fun r => by simp [List.mem_filter]⟩

/-- Witness for C10: a concrete query (`"LO wor"`, matching
`"hello world"` case-insensitively) filters a concrete store. -/
theorem c10_witness :
    (historySearch [histRecOld] "LO wor".data).Sublist [histRecOld] ∧
    histRecOld ∈ historySearch [histRecOld] "LO wor".data := by
  have t := (c10_search_spec [histRecOld] "LO wor".data).2 (by decide)
  exact ⟨t.1, (t.2 histRecOld).mpr ⟨by simp, by decide⟩⟩

theorem takeP_sound (chEq : Char → Char → Bool) (pat : Str) :
    ∀ cs m r, takeP chEq pat cs = some (m, r) → cs = m ++ r := by
  induction pat with
  | nil =>
    intro cs m r h
    simp only [takeP, Option.some.injEq, Prod.mk.injEq] at h
    rw [← h.1, ← h.2]
    rfl
  | cons p ps ih =>
    intro cs m r h
    cases cs with
    | nil => simp [takeP] at h
    | cons c cs' =>
      simp only [takeP] at h
      by_cases hc : chEq c p
      · rw [if_pos hc] at h
        cases htk : takeP chEq ps cs' with
        | none => rw [htk] at h; simp at h
        | some pr =>
          rw [htk] at h
          obtain ⟨m', r'⟩ := pr
          simp only [Option.some.injEq, Prod.mk.injEq] at h
          rw [← h.1, ← h.2]
          have := ih cs' m' r' htk
          rw [List.cons_append, ← this]
      · rw [if_neg hc] at h
        simp at h

theorem takeP_append (chEq : Char → Char → Bool) (pat : Str) :
    ∀ a b m r, takeP chEq pat a = some (m, r) → takeP chEq pat (a ++ b) = some (m, r ++ b) := by
  induction pat with
  | nil =>
    intro a b m r h
    simp only [takeP, Option.some.injEq, Prod.mk.injEq] at h ⊢
    exact ⟨h.1, by rw [← h.2]⟩
  | cons p ps ih =>
    intro a b m r h
    cases a with
    | nil => simp [takeP] at h
    | cons c a' =>
      show takeP chEq (p :: ps) (c :: (a' ++ b)) = some (m, r ++ b)
      simp only [takeP] at h ⊢
      by_cases hc : chEq c p
      · rw [if_pos hc] at h ⊢
        cases htk : takeP chEq ps a' with
        | none => rw [htk] at h; simp at h
        | some pr =>
          rw [htk] at h
          obtain ⟨m', r'⟩ := pr
          rw [ih a' b m' r' htk]
          simp only [Option.some.injEq, Prod.mk.injEq] at h ⊢
          exact ⟨h.1, by rw [h.2]⟩
      · rw [if_neg hc] at h
        simp at h

theorem startsP_append (chEq : Char → Char → Bool) (pat a b : Str)
    (h : startsP chEq pat a = true) : startsP chEq pat (a ++ b) = true := by
  unfold startsP at h ⊢
  cases htk : takeP chEq pat a with
  | none => rw [htk] at h; simp at h
  | some pr =>
    obtain ⟨m, r⟩ := pr
    rw [takeP_append chEq pat a b m r htk]
    rfl

theorem takeP_ci_of_cs (pat : Str) :
    ∀ cs m r, takeP csEq pat cs = some (m, r) → takeP ciEq pat cs = some (m, r) := by
  induction pat with
  | nil => intro cs m r h; exact h
  | cons p ps ih =>
    intro cs m r h
    cases cs with
    | nil => simp [takeP] at h
    | cons c cs' =>
      simp only [takeP] at h ⊢
      by_cases hc : csEq c p
      · have hci : ciEq c p = true := by
          simp only [csEq, beq_iff_eq] at hc
          simp [ciEq, hc]
        rw [if_pos hc] at h
        rw [if_pos hci]
        cases htk : takeP csEq ps cs' with
        | none => rw [htk] at h; simp at h
        | some pr =>
          rw [htk] at h
          obtain ⟨m', r'⟩ := pr
          rw [ih cs' m' r' htk]
          exact h
      · rw [if_neg hc] at h
        simp at h

theorem startsP_ci_of_cs (pat cs : Str) (h : startsP csEq pat cs = true) :
    startsP ciEq pat cs = true := by
  unfold startsP at h ⊢
  cases htk : takeP csEq pat cs with
  | none => rw [htk] at h; simp at h
  | some pr =>
    obtain ⟨m, r⟩ := pr
    rw [takeP_ci_of_cs pat cs m r htk]
    rfl

theorem containsP_of_startsP (chEq : Char → Char → Bool) (pat cs : Str)
    (h : startsP chEq pat cs = true) : containsP chEq pat cs = true := by
  cases cs with
  | nil => exact h
  | cons c rest => simp [containsP, h]

theorem containsP_append_right (chEq : Char → Char → Bool) (pat a b : Str)
    (h : containsP chEq pat b = true) : containsP chEq pat (a ++ b) = true := by
  induction a with
  | nil => exact h
  | cons c a' ih => simp [containsP, ih]

theorem containsP_append_left (chEq : Char → Char → Bool) (pat a b : Str)
    (h : containsP chEq pat a = true) : containsP chEq pat (a ++ b) = true := by
  induction a with
  | nil =>
    have hs : startsP chEq pat [] = true := h
    cases pat with
    | nil =>
      cases b with
      | nil => exact h
      | cons c b' => simp [containsP, startsP, takeP]
    | cons p ps => simp [startsP, takeP] at hs
  | cons c a' ih =>
    simp only [containsP, Bool.or_eq_true] at h
    rcases h with h | h
    · have := startsP_append chEq pat (c :: a') b h
      rw [List.cons_append] at this
      simp [containsP, this]
    · simp [containsP, ih h]

theorem containsP_ci_of_cs (pat cs : Str) (h : containsP csEq pat cs = true) :
    containsP ciEq pat cs = true := by
  induction cs with
  | nil => exact startsP_ci_of_cs pat [] h
  | cons c rest ih =>
    simp only [containsP, Bool.or_eq_true] at h ⊢
    rcases h with h | h
    · exact Or.inl (startsP_ci_of_cs pat (c :: rest) h)
    · exact Or.inr (ih h)

theorem not_containsP_left (chEq : Char → Char → Bool) (pat a b : Str)
    (h : containsP chEq pat (a ++ b) = false) : containsP chEq pat a = false := by
  cases hc : containsP chEq pat a with
  | false => rfl
  | true => rw [containsP_append_left chEq pat a b hc] at h; exact h

theorem not_containsP_right (chEq : Char → Char → Bool) (pat a b : Str)
    (h : containsP chEq pat (a ++ b) = false) : containsP chEq pat b = false := by
  cases hc : containsP chEq pat b with
  | false => rfl
  | true => rw [containsP_append_right chEq pat a b hc] at h; exact h

theorem splitFirstP_sound (chEq : Char → Char → Bool) (pat : Str) :
    ∀ cs b m r, splitFirstP chEq pat cs = some (b, m, r) → cs = b ++ m ++ r := by
  intro cs
  induction cs with
  | nil =>
    intro b m r h
    simp only [splitFirstP] at h
    cases htk : takeP chEq pat [] with
    | none => rw [htk] at h; simp at h
    | some pr =>
      obtain ⟨m', r'⟩ := pr
      rw [htk] at h
      simp only [Option.some.injEq, Prod.mk.injEq] at h
      rw [← h.1, ← h.2.1, ← h.2.2]
      simpa using takeP_sound chEq pat [] m' r' htk
  | cons c rest ih =>
    intro b m r h
    simp only [splitFirstP] at h
    cases htk : takeP chEq pat (c :: rest) with
    | some pr =>
      obtain ⟨m', r'⟩ := pr
      rw [htk] at h
      simp only [Option.some.injEq, Prod.mk.injEq] at h
      rw [← h.1, ← h.2.1, ← h.2.2]
      simpa using takeP_sound chEq pat (c :: rest) m' r' htk
    | none =>
      rw [htk] at h
      cases hsf : splitFirstP chEq pat rest with
      | none => rw [hsf] at h; simp at h
      | some pr =>
        obtain ⟨b', m', r'⟩ := pr
        rw [hsf] at h
        simp only [Option.some.injEq, Prod.mk.injEq] at h
        rw [← h.1, ← h.2.1, ← h.2.2]
        have := ih b' m' r' hsf
        simp [this]

theorem splitFirstP_eq_none (chEq : Char → Char → Bool) (pat : Str) :
    ∀ cs, containsP chEq pat cs = false → splitFirstP chEq pat cs = none := by
  intro cs
  induction cs with
  | nil =>
    intro h
    have hs : startsP chEq pat [] = false := h
    simp only [splitFirstP]
    cases htk : takeP chEq pat [] with
    | none => rfl
    | some pr => rw [startsP, htk] at hs; simp at hs
  | cons c rest ih =>
    intro h
    simp only [containsP, Bool.or_eq_false_iff] at h
    simp only [splitFirstP]
    cases htk : takeP chEq pat (c :: rest) with
    | none => rw [ih h.2]
    | some pr => rw [startsP, htk] at h; simp at h

theorem lastIdxP_eq_none (chEq : Char → Char → Bool) (pat : Str) :
    ∀ cs, containsP chEq pat cs = false → lastIdxP chEq pat cs = none := by
  intro cs
  induction cs with
  | nil =>
    intro h
    have hs : startsP chEq pat [] = false := h
    simp [lastIdxP, hs]
  | cons c rest ih =>
    intro h
    simp only [containsP, Bool.or_eq_false_iff] at h
    simp [lastIdxP, ih h.2, h.1]

theorem startsP_eq_false_of_not_contains (chEq : Char → Char → Bool) (pat cs : Str)
    (h : containsP chEq pat cs = false) : startsP chEq pat cs = false := by
  cases hs : startsP chEq pat cs with
  | false => rfl
  | true => rw [containsP_of_startsP chEq pat cs hs] at h; exact h

theorem takeP_eq_none_of_not_contains (chEq : Char → Char → Bool) (pat cs : Str)
    (h : containsP chEq pat cs = false) : takeP chEq pat cs = none := by
  have hs := startsP_eq_false_of_not_contains chEq pat cs h
  unfold startsP at hs
  cases htk : takeP chEq pat cs with
  | none => rfl
  | some pr => rw [htk] at hs; simp at hs

theorem containsP_tail (chEq : Char → Char → Bool) (pat : Str) (c : Char) (rest : Str)
    (h : containsP chEq pat (c :: rest) = false) : containsP chEq pat rest = false := by
  simp only [containsP, Bool.or_eq_false_iff] at h
  exact h.2

theorem stripTagGo_id (chEq : Char → Char → Bool) (w : Str) :
    ∀ fuel cs, cs.length ≤ fuel →
      containsP chEq (tagOpen w) cs = false →
      containsP chEq (tagClose w) cs = false →
      stripTagGo chEq w fuel cs = cs := by
  intro fuel
  induction fuel with
  | zero => intro cs _ _ _; rfl
  | succ f ih =>
    intro cs hlen ho hc
    cases cs with
    | nil => rfl
    | cons c rest =>
      simp only [stripTagGo]
      rw [takeP_eq_none_of_not_contains chEq (tagClose w) (c :: rest) hc,
        takeP_eq_none_of_not_contains chEq (tagOpen w) (c :: rest) ho]
      rw [ih rest (by simp only [List.length_cons] at hlen; omega)
        (containsP_tail chEq (tagOpen w) c rest ho)
        (containsP_tail chEq (tagClose w) c rest hc)]

theorem stripTag_id (chEq : Char → Char → Bool) (w cs : Str)
    (ho : containsP chEq (tagOpen w) cs = false)
    (hc : containsP chEq (tagClose w) cs = false) :
    stripTag chEq w cs = cs :=
  stripTagGo_id chEq w cs.length cs (Nat.le_refl _) ho hc

theorem scanPairsGo_no_close (opn cls : Str) (fuel : Nat) (cs : Str)
    (h : containsP ciEq cls cs = false) :
    scanPairsGo opn cls (fuel + 1) cs = ([], cs) := by
  simp only [scanPairsGo]
  cases hs : splitFirstP ciEq opn cs with
  | none => rfl
  | some pr =>
    obtain ⟨pre, m, rest⟩ := pr
    have hcs := splitFirstP_sound ciEq opn cs pre m rest hs
    have hrest : containsP ciEq cls rest = false := by
      have h2 : containsP ciEq cls (pre ++ m ++ rest) = false := by rw [← hcs]; exact h
      exact not_containsP_right ciEq cls m rest
        (not_containsP_right ciEq cls pre (m ++ rest) (by simpa using h2))
    simp [splitFirstP_eq_none ciEq cls rest hrest]

theorem scanPairs_no_close (opn cls : Str) (cs : Str)
    (h : containsP ciEq cls cs = false) :
    scanPairs opn cls cs = ([], cs) :=
  scanPairsGo_no_close opn cls cs.length cs h

theorem scanPairsGo_no_open (opn cls : Str) (fuel : Nat) (cs : Str)
    (h : containsP ciEq opn cs = false) :
    scanPairsGo opn cls (fuel + 1) cs = ([], cs) := by
  simp only [scanPairsGo]
  rw [splitFirstP_eq_none ciEq opn cs h]

theorem scanStripGo_no_open (w : Str) (fuel : Nat) (cs : Str)
    (h : containsP ciEq (tagOpen w) cs = false) :
    scanStripGo w (fuel + 1) cs = ([], cs) := by
  simp only [scanStripGo]
  rw [splitFirstP_eq_none ciEq (tagOpen w) cs h]

theorem scanStrip_no_open (w : Str) (cs : Str)
    (h : containsP ciEq (tagOpen w) cs = false) :
    scanStrip w cs = ([], cs) :=
  scanStripGo_no_open w cs.length cs h

theorem dropWhile_head_false {p : Char → Bool} :
    ∀ {l : Str} {c : Char} {t : Str}, List.dropWhile p l = c :: t → p c = false := by
  intro l
  induction l with
  | nil => intro c t h; simp [List.dropWhile] at h
  | cons a l' ih =>
    intro c t h
    by_cases ha : p a
    · rw [List.dropWhile_cons_of_pos ha] at h
      exact ih h
    · rw [List.dropWhile_cons_of_neg ha] at h
      cases h
      simpa using ha

theorem dropWhile_self_of_head {p : Char → Bool} (l : Str)
    (h : ∀ c t, l = c :: t → p c = false) : List.dropWhile p l = l := by
  cases l with
  | nil => rfl
  | cons c t => rw [List.dropWhile_cons_of_neg (by simp [h c t rfl])]

theorem dropWhile_idem (p : Char → Bool) (l : Str) :
    List.dropWhile p (List.dropWhile p l) = List.dropWhile p l := by
  cases hd : List.dropWhile p l with
  | nil => rfl
  | cons c t => rw [List.dropWhile_cons_of_neg (by simp [dropWhile_head_false hd])]

theorem jsTrim_decomp (cs : Str) : ∃ a b, cs = a ++ jsTrim cs ++ b := by
  refine ⟨cs.takeWhile isWs,
    ((List.dropWhile isWs cs).reverse.takeWhile isWs).reverse, ?_⟩
  unfold jsTrim
  have h1 : cs = cs.takeWhile isWs ++ cs.dropWhile isWs :=
    (List.takeWhile_append_dropWhile ..).symm
  have h2 : (cs.dropWhile isWs).reverse =
      (cs.dropWhile isWs).reverse.takeWhile isWs ++
        (cs.dropWhile isWs).reverse.dropWhile isWs :=
    (List.takeWhile_append_dropWhile ..).symm
  have h3 : cs.dropWhile isWs =
      ((cs.dropWhile isWs).reverse.dropWhile isWs).reverse ++
        ((cs.dropWhile isWs).reverse.takeWhile isWs).reverse := by
    have h4 := congrArg List.reverse h2
    rw [List.reverse_reverse, List.reverse_append] at h4
    exact h4
  calc cs = cs.takeWhile isWs ++ cs.dropWhile isWs := h1
    _ = cs.takeWhile isWs ++
        (((cs.dropWhile isWs).reverse.dropWhile isWs).reverse ++
          ((cs.dropWhile isWs).reverse.takeWhile isWs).reverse) := by rw [← h3]
    _ = cs.takeWhile isWs ++
        ((cs.dropWhile isWs).reverse.dropWhile isWs).reverse ++
        ((cs.dropWhile isWs).reverse.takeWhile isWs).reverse := by
          rw [List.append_assoc]

theorem containsP_jsTrim_false (chEq : Char → Char → Bool) (pat cs : Str)
    (h : containsP chEq pat cs = false) :
    containsP chEq pat (jsTrim cs) = false := by
  obtain ⟨a, b, hab⟩ := jsTrim_decomp cs
  cases hc : containsP chEq pat (jsTrim cs) with
  | false => rfl
  | true =>
    have : containsP chEq pat cs = true := by
      rw [hab, List.append_assoc]
      exact containsP_append_right chEq pat a (jsTrim cs ++ b)
        (containsP_append_left chEq pat (jsTrim cs) b hc)
    rw [this] at h
    exact h

theorem jsTrim_fix (cs : Str) : jsTrim (jsTrim cs) = jsTrim cs := by
  have hz : (jsTrim cs).reverse = (cs.dropWhile isWs).reverse.dropWhile isWs := by
    unfold jsTrim
    rw [List.reverse_reverse]
  have hstepA : List.dropWhile isWs (jsTrim cs) = jsTrim cs := by
    cases hu : jsTrim cs with
    | nil => rfl
    | cons c t =>
      have h2 : (cs.dropWhile isWs).reverse =
          (cs.dropWhile isWs).reverse.takeWhile isWs ++
            (cs.dropWhile isWs).reverse.dropWhile isWs :=
        (List.takeWhile_append_dropWhile ..).symm
      have h4 := congrArg List.reverse h2
      rw [List.reverse_reverse, List.reverse_append] at h4
      have h5 : cs.dropWhile isWs =
          jsTrim cs ++ ((cs.dropWhile isWs).reverse.takeWhile isWs).reverse := h4
      rw [hu, List.cons_append] at h5
      have hc : isWs c = false := dropWhile_head_false h5
      rw [List.dropWhile_cons_of_neg (by simp [hc])]
  have hstepB : List.dropWhile isWs (jsTrim cs).reverse = (jsTrim cs).reverse := by
    rw [hz, dropWhile_idem]
  show ((List.dropWhile isWs (jsTrim cs)).reverse.dropWhile isWs).reverse = jsTrim cs
  rw [hstepA, hstepB, List.reverse_reverse]

/-- Claim C7 (amended): the visible output of `separateThinking` is
always trimmed (first conjunct), and re-running the extractor on any
trimmed string that contains *no tag markers of any kind* returns it
unchanged with an empty reasoning accumulator (second conjunct) — this is
the idempotence the claim asserts, but only under the parenthetical
proviso made into a real hypothesis: a single run does NOT guarantee
that no tag markers survive into the visible output (see the
counterexample, where stripping an orphan `<thinking>` marker glues the
surrounding text into a fresh `<think>` marker). -/
theorem c7_idempotent_on_tag_free :
    (∀ t, jsTrim (separateThinking t).output = (separateThinking t).output) ∧
    (∀ s, containsP ciEq (tagOpen wThink) s = false →
      containsP ciEq (tagClose wThink) s = false →
      containsP ciEq (tagOpen wThinking) s = false →
      containsP ciEq (tagClose wThinking) s = false →
      containsP ciEq (tagOpen wReasoning) s = false →
      containsP ciEq (tagClose wReasoning) s = false →
      jsTrim s = s →
      separateThinking s = ⟨[], s⟩) := by
  constructor
  · intro t
    simp only [separateThinking]
    exact jsTrim_fix _
  · intro s h1 h2 h3 h4 h5 h6 ht
    have hp1 : scanPairs (tagOpen wThink) (tagClose wThink) s = ([], s) :=
      scanPairs_no_close _ _ s h2
    have hcs1 : containsP csEq (tagOpen wThink) s = false := by
      cases hx : containsP csEq (tagOpen wThink) s with
      | false => rfl
      | true => rw [containsP_ci_of_cs _ s hx] at h1; exact h1
    have hlast : lastIdxP csEq (tagOpen wThink) s = none := lastIdxP_eq_none csEq _ s hcs1
    have hstrip1 : stripTag ciEq wThink s = s := stripTag_id ciEq wThink s h1 h2
    have hscT : scanStrip wThinking s = ([], s) := scanStrip_no_open wThinking s h3
    have hscR : scanStrip wReasoning s = ([], s) := scanStrip_no_open wReasoning s h5
    have hstrip2 : stripTag ciEq wThinking s = s := stripTag_id ciEq wThinking s h3 h4
    have hstrip3 : stripTag ciEq wReasoning s = s := stripTag_id ciEq wReasoning s h5 h6
    simp only [separateThinking, hp1, hlast, hstrip1, ht, hscT, hscR, hstrip2, hstrip3]
    rfl

/-- Claim C7 (counterexample): a tag marker survives a run of the
extractor: on `"<thi<thinking>nk>x"`, stripping the orphan `<thinking>`
marker glues `"<thi"` and `"nk>x"` into the visible output
`"<think>x"`, which contains a `<think>` marker; re-running the
extractor on that visible output then yields a *different* result
(reasoning `"x"`, visible `""`), refuting both "no tag markers of any
kind survive into the visible output" and idempotence as stated. -/
theorem c7_counterexample_marker_survives :
    (separateThinking "<thi<thinking>nk>x".data).output = "<think>x".data ∧
    containsP ciEq (tagOpen wThink) "<think>x".data = true ∧
    separateThinking "<think>x".data = ⟨"x".data, []⟩ := by
  exact ⟨by decide, by decide, by decide⟩

/-- Witness for C7: the amended theorem applied on a concrete tag-free
trimmed string. -/
theorem c7_witness :
    separateThinking "Hi there".data = ⟨[], "Hi there".data⟩ :=
  c7_idempotent_on_tag_free.2 "Hi there".data (by decide) (by decide) (by decide)
    (by decide) (by decide) (by decide) (by decide)

/-- Claim C2 (amended): only for the `<think>` kind does the extractor
move an unclosed block to the reasoning output.  For an input whose last
(case-sensitive) `<think>` opening tag sits at index `i`, whose matching
`</think>` is absent, and whose visible part `cs.take i` contains no
further tag markers, `separateThinking` appends everything after the
opening tag to the reasoning output and excludes it from the visible
output — and both outputs are additionally trimmed, so the spec's own
example yields visible `"Hello"` (not `"Hello "`) and reasoning
`"reasoning so far"` (see the witness).  For the `<thinking>` and
`<reasoning>` kinds no such move happens: an unclosed opening tag is
merely stripped and its trailing content stays visible (see the
counterexample). -/
theorem c2_unclosed_think_tag (cs : Str) (i : Nat)
    (hOpen : lastIdxP csEq (tagOpen wThink) cs = some i)
    (hNoClose : containsP ciEq (tagClose wThink) cs = false)
    (hv1 : containsP ciEq (tagOpen wThink) (cs.take i) = false)
    (hv2 : containsP ciEq (tagOpen wThinking) (cs.take i) = false)
    (hv3 : containsP ciEq (tagClose wThinking) (cs.take i) = false)
    (hv4 : containsP ciEq (tagOpen wReasoning) (cs.take i) = false)
    (hv5 : containsP ciEq (tagClose wReasoning) (cs.take i) = false) :
    separateThinking cs = ⟨jsTrim (cs.drop (i + 7)), jsTrim (cs.take i)⟩ := by
  have hp1 : scanPairs (tagOpen wThink) (tagClose wThink) cs = ([], cs) :=
    scanPairs_no_close _ _ cs hNoClose
  have hcsClose : containsP csEq (tagClose wThink) cs = false := by
    cases hx : containsP csEq (tagClose wThink) cs with
    | false => rfl
    | true => rw [containsP_ci_of_cs _ cs hx] at hNoClose; exact hNoClose
  have hlastC : lastIdxP csEq (tagClose wThink) cs = none :=
    lastIdxP_eq_none csEq _ cs hcsClose
  have htakeClose : containsP ciEq (tagClose wThink) (cs.take i) = false := by
    have hsplit : cs.take i ++ cs.drop i = cs := List.take_append_drop i cs
    exact not_containsP_left ciEq _ _ _ (by rw [hsplit]; exact hNoClose)
  have hstrip1 : stripTag ciEq wThink (cs.take i) = cs.take i :=
    stripTag_id ciEq wThink (cs.take i) hv1 htakeClose
  have hu2 : containsP ciEq (tagOpen wThinking) (jsTrim (cs.take i)) = false :=
    containsP_jsTrim_false ciEq _ _ hv2
  have hu3 : containsP ciEq (tagClose wThinking) (jsTrim (cs.take i)) = false :=
    containsP_jsTrim_false ciEq _ _ hv3
  have hu4 : containsP ciEq (tagOpen wReasoning) (jsTrim (cs.take i)) = false :=
    containsP_jsTrim_false ciEq _ _ hv4
  have hu5 : containsP ciEq (tagClose wReasoning) (jsTrim (cs.take i)) = false :=
    containsP_jsTrim_false ciEq _ _ hv5
  have hscT : scanStrip wThinking (jsTrim (cs.take i)) = ([], jsTrim (cs.take i)) :=
    scanStrip_no_open wThinking _ hu2
  have hscR : scanStrip wReasoning (jsTrim (cs.take i)) = ([], jsTrim (cs.take i)) :=
    scanStrip_no_open wReasoning _ hu4
  have hstripTh : stripTag ciEq wThinking (jsTrim (cs.take i)) = jsTrim (cs.take i) :=
    stripTag_id ciEq wThinking _ hu2 hu3
  have hstripRe : stripTag ciEq wReasoning (jsTrim (cs.take i)) = jsTrim (cs.take i) :=
    stripTag_id ciEq wReasoning _ hu4 hu5
  have hfix : jsTrim (jsTrim (cs.take i)) = jsTrim (cs.take i) := jsTrim_fix _
  simp only [separateThinking, hp1, hOpen, hlastC, hstrip1, hscT, hscR, hstripTh,
    hstripRe, hfix]
  simp

/-- Claim C2 (counterexample): an unclosed `<thinking>` tag is *not*
moved to the reasoning output: on `"Hello <thinking>secret"` the
extractor returns reasoning `""` and visible `"Hello secret"` — the
tag marker is stripped but everything after it stays visible, refuting
"an opening tag of any supported kind". -/
theorem c2_counterexample_thinking_kind :
    separateThinking "Hello <thinking>secret".data = ⟨[], "Hello secret".data⟩ ∧
    ¬ ("Hello secret".data = "Hello ".data) := by
  exact ⟨by decide, by decide⟩

/-- Witness for C2: the amended theorem applied on the spec's own
example `"Hello <think>reasoning so far"` (the unclosed tag sits at
index 6), yielding visible `"Hello"` and reasoning
`"reasoning so far"`. -/
theorem c2_witness :
    lastIdxP csEq (tagOpen wThink) "Hello <think>reasoning so far".data = some 6 ∧
    separateThinking "Hello <think>reasoning so far".data =
      ⟨"reasoning so far".data, "Hello".data⟩ := by
  refine ⟨by decide, ?_⟩
  have h := c2_unclosed_think_tag "Hello <think>reasoning so far".data 6 (by decide)
    (by decide) (by decide) (by decide) (by decide) (by decide) (by decide)
  rw [h]
  decide
